import Mathlib

/-!
Verification of the `ProjectAnalyzer` component of the neta repository
(`src/analyzer/index.ts`, types in `src/analyzer/types.ts`).

The analyzer is embedded shallowly: the file system is an explicit value,
JavaScript string operations are modelled on `List Char`, the TypeScript
syntax tree is an inductive type, and the effectful `analyze` method is a
function from a file system to a result together with the trace of
file-system operations it performs.
-/

namespace Neta

/-! ### String helpers (JavaScript semantics, over `List Char`) -/

/-- `s.includes(pat)` of JavaScript: substring containment. -/
def containsSub (pat : List Char) : List Char → Bool
  | [] => pat.isPrefixOf ([] : List Char)
  | s@(_ :: t) => pat.isPrefixOf s || containsSub pat t

/-- JavaScript `String.prototype.includes`. -/
def strContains (s pat : String) : Bool := containsSub pat.data s.data

/-- JavaScript `String.prototype.startsWith`. -/
def strStartsWith (s pat : String) : Bool := pat.data.isPrefixOf s.data

/-- JavaScript `String.prototype.endsWith`. -/
def strEndsWith (s pat : String) : Bool := pat.data.isSuffixOf s.data

/-- `s.replace(pat, rep)` of JavaScript with a string pattern:
replaces only the first occurrence, returns the string unchanged when the
pattern does not occur. -/
def replaceFirstChars (pat rep : List Char) : List Char → List Char
  | [] => if pat.isEmpty then rep else []
  | s@(c :: t) =>
    if pat.isPrefixOf s then rep ++ s.drop pat.length
    else c :: replaceFirstChars pat rep t

/-- JavaScript `String.prototype.replace` with a string pattern. -/
def jsReplaceFirst (s pat rep : String) : String :=
  ⟨replaceFirstChars pat.data rep.data s.data⟩

/-! ### Path helpers (node `path` module, for relative posix paths) -/

/-- The characters after the last `/`. -/
def basenameChars (s : List Char) : List Char :=
  (s.reverse.takeWhile (fun c => c ≠ '/')).reverse

/-- node `path.basename` (one-argument form) for the relative paths the
analyzer handles. -/
def basename (s : String) : String := ⟨basenameChars s.data⟩

/-- `path.extname`: the suffix of the base name from its last dot;
empty when the base name has no dot besides a leading one. -/
def extnameChars (b : List Char) : List Char :=
  let pre := b.reverse.takeWhile (fun c => c ≠ '.')
  if pre.length + 1 < b.length then '.' :: pre.reverse else []

/-- `path.basename(file, path.extname(file))`: base name without its
extension. -/
def stripExt (p : String) : String :=
  let b := basenameChars p.data
  let e := extnameChars b
  ⟨b.take (b.length - e.length)⟩

/-- The characters strictly before the last `/`, or `none` when the list
has no `/`. -/
def dirnameAux : List Char → Option (List Char)
  | [] => none
  | c :: t =>
    match dirnameAux t with
    | some d => some (c :: d)
    | none => if c = '/' then some [] else none

/-- node `path.dirname` for the relative paths the analyzer handles. -/
def dirname (p : String) : String :=
  match dirnameAux p.data with
  | none => "."
  | some [] => "/"
  | some d => ⟨d⟩

/-! ### Glob patterns used by the analyzer -/

/-- Split a character list on a separator character. -/
def splitOnChar (sep : Char) : List Char → List (List Char)
  | [] => [[]]
  | x :: t =>
    let r := splitOnChar sep t
    if x = sep then [] :: r
    else
      match r with
      | [] => [[x]]
      | h :: t2 => (x :: h) :: t2

/-- Every path segment after the first is nonempty and, as required by
glob defaults, is not a dotfile segment. -/
def validSegs (p : String) : Bool :=
  (splitOnChar '/' p.data).tail.all (fun s =>
    match s with
    | [] => false
    | c :: _ => c != '.')

/-- Matching of `DIR/**/*.\x7bts,tsx\x7d` (the three source globs of
`scanComponents`, with `DIR` one of `app`, `components`, `lib`). -/
def matchesSrcGlob (dir : String) (p : String) : Bool :=
  strStartsWith p (dir ++ "/") && validSegs p &&
    (strEndsWith p ".ts" || strEndsWith p ".tsx")

/-- Matching of the ignore pattern `**/node_modules/**`: the path has a
`node_modules` directory segment. -/
def ignoredNodeModules (p : String) : Bool :=
  ((splitOnChar '/' p.data).dropLast).any (fun s => s = "node_modules".data)

/-- Matching of `app/**/page.\x7bts,tsx\x7d` (the glob of `scanRoutes`). -/
def matchesPageGlob (p : String) : Bool :=
  strStartsWith p "app/" && validSegs p &&
    (basename p == "page.ts" || basename p == "page.tsx")

/-! ### TypeScript syntax-tree model

The nodes `parseFile` discriminates on. A default-exported function or
class declaration carries `exportKw` and `defaultKw` modifiers and is a
declaration node, not an export assignment, exactly as in the TypeScript
compiler API; `ts.isExportAssignment` holds only for the
`export default <expr>;` / `export =` statement forms. Variable
declaration names bound by destructuring patterns are `none` (the code
only records identifier names). -/

inductive TsModifier where
  | exportKw
  | defaultKw
  | asyncKw
  | declareKw
deriving DecidableEq, Repr

inductive TsNode where
  | importDecl (moduleSpecifier : Option String)
  | exportDecl (moduleSpecifier : Option String)
  | exportAssignment
  | functionDecl (modifiers : List TsModifier) (name : Option String)
      (children : List TsNode)
  | classDecl (modifiers : List TsModifier) (name : Option String)
      (children : List TsNode)
  | variableStatement (modifiers : List TsModifier)
      (declNames : List (Option String))
  | otherNode (children : List TsNode)

/-! ### Analyzer data model (`src/analyzer/types.ts`) -/

inductive ComponentType where
  | server
  | client
deriving DecidableEq, Repr

inductive FileType where
  | page
  | layout
  | component
  | hook
  | utility
  | serverAction
  | routeHandler
deriving DecidableEq, Repr

structure ComponentInfo where
  filePath : String
  name : String
  type : ComponentType
  fileType : FileType
  dependencies : List String
  exports : List String
deriving DecidableEq, Repr

structure AnalysisResult where
  nextJsRoot : String
  isAppRouter : Bool
  components : List ComponentInfo
  routes : List String
deriving DecidableEq, Repr

/-- The failures `analyze` can raise: the explicit unsupported-layout
throw, and a `readFileSync` failure escaping `scanComponents`. -/
inductive AnalyzerError where
  | unsupportedLayout
  | unreadableFile (path : String)
deriving DecidableEq, Repr

/-! ### File-system model -/

/-- A file's content, seen both as raw text (for the `"use client"` scan)
and as its parsed syntax tree (the top-level statements produced by
`ts.createSourceFile`). -/
structure FileContent where
  text : String
  ast : List TsNode

/-- One file under the project root; `content = none` models a file that
`readFileSync` cannot read. -/
structure SrcFile where
  path : String
  content : Option FileContent

/-- The tree under the project root: existing directories (relative
paths) and files in traversal order. -/
structure FileSystem where
  rootDir : String
  dirs : List String
  files : List SrcFile

/-- node `fs.existsSync` relative to the root: true when an entry of any
kind (directory or file) has this path. -/
def fsExists (fs : FileSystem) (p : String) : Bool :=
  fs.dirs.contains p || fs.files.any (fun f => f.path == p)

/-- node `fs.readFileSync` relative to the root, as an `Option`. -/
def readFile (fs : FileSystem) (p : String) : Option FileContent :=
  match fs.files.find? (fun f => f.path == p) with
  | some f => f.content
  | none => none

/-- The paths of the files matching a glob predicate, in traversal
order. -/
def globFiles (fs : FileSystem) (pred : String → Bool) : List String :=
  (fs.files.filter (fun f => pred f.path)).map (fun f => f.path)

/-! ### File-system operation traces

`analyze` is embedded as a function returning both its result and the
ordered list of file-system operations it performs, so that read-only-ness
and idempotence are provable rather than assumed. -/

inductive FsOp where
  | existsCheck (p : String)
  | globSearch (pattern : String)
  | readOp (p : String)
  | writeFile (p : String) (text : String)
  | deleteFile (p : String)
  | renameFile (src : String) (dst : String)

def isReadOnlyOp : FsOp → Bool
  | .writeFile _ _ => false
  | .deleteFile _ => false
  | .renameFile _ _ => false
  | _ => true

/-- The effect of one operation on the tree: reads leave it unchanged,
writes update or create, deletes remove, renames relabel. -/
def applyOp (fs : FileSystem) : FsOp → FileSystem
  | .writeFile p text =>
    { fs with files :=
        if fs.files.any (fun f => f.path == p) then
          fs.files.map (fun f =>
            if f.path == p then { f with content := some ⟨text, []⟩ } else f)
        else fs.files ++ [⟨p, some ⟨text, []⟩⟩] }
  | .deleteFile p => { fs with files := fs.files.filter (fun f => f.path != p) }
  | .renameFile src dst =>
    { fs with files := fs.files.map (fun f =>
        if f.path == src then { f with path := dst } else f) }
  | _ => fs

def applyTrace (fs : FileSystem) (ops : List FsOp) : FileSystem :=
  ops.foldl applyOp fs

/-! ### `ProjectAnalyzer.parseFile`

The recursive visitor of `parseFile`, as a pure fold over the syntax
tree. Each node contributes `(dependencies, exports)`; children are
visited after the node itself, and sibling contributions are concatenated
in source order, matching the mutable-array pushes of the source. -/

mutual

def visitNode : TsNode → List String × List String
  | .importDecl ms => (ms.toList, [])
  | .exportDecl ms => (ms.toList, [])
  | .exportAssignment => ([], ["default"])
  | .functionDecl mods name ch =>
    let own := if mods.contains TsModifier.exportKw then name.toList else []
    let c := visitList ch
    (c.1, own ++ c.2)
  | .classDecl mods name ch =>
    let own := if mods.contains TsModifier.exportKw then name.toList else []
    let c := visitList ch
    (c.1, own ++ c.2)
  | .variableStatement mods declNames =>
    ([], if mods.contains TsModifier.exportKw then declNames.reduceOption else [])
  | .otherNode ch => visitList ch

def visitList : List TsNode → List String × List String
  | [] => ([], [])
  | n :: rest =>
    let a := visitNode n
    let b := visitList rest
    (a.1 ++ b.1, a.2 ++ b.2)

end

/-- `ProjectAnalyzer.parseFile` on a parsed source file (its top-level
statements): the `(dependencies, exports)` pair. -/
def parseFile (ast : List TsNode) : List String × List String :=
  visitList ast

/-! ### `ProjectAnalyzer.determineComponentType` and
`ProjectAnalyzer.determineFileType` -/

/-- `ProjectAnalyzer.determineComponentType`: a purely textual scan of
the raw content for a quoted `use client` directive. -/
def determineComponentType (content : String) : ComponentType :=
  if strContains content "\"use client\"" || strContains content "\x27use client\x27" then
    ComponentType.client
  else
    ComponentType.server

/-- `ProjectAnalyzer.determineFileType`: the eight path/name rules, first
match wins. -/
def determineFileType (filePath : String) : FileType :=
  let fileName := basename filePath
  if strStartsWith fileName "page." then FileType.page
  else if strStartsWith fileName "layout." then FileType.layout
  else if strStartsWith fileName "route." then FileType.routeHandler
  else if strContains filePath "components/" then FileType.component
  else if strContains filePath "hooks/" || strStartsWith fileName "use" then FileType.hook
  else if strContains filePath "lib/" || strContains filePath "utils/" then FileType.utility
  else if strContains fileName "actions" || strContains filePath "actions/" then
    FileType.serverAction
  else FileType.component

/-! ### `ProjectAnalyzer.scanRoutes` -/

/-- The route string derived from one `page.*` file path:
`path.dirname(f).replace(\x27app\x27, \x27\x27) || \x27/\x27`. -/
def routeOf (p : String) : String :=
  let r := jsReplaceFirst (dirname p) "app" ""
  if r = "" then "/" else r

/-- `ProjectAnalyzer.scanRoutes`: glob `app/**/page.\x7bts,tsx\x7d`
(without the vendor ignore) and derive a route from each match. -/
def scanRoutes (fs : FileSystem) : List String :=
  (globFiles fs matchesPageGlob).map routeOf

/-! ### `ProjectAnalyzer.scanComponents` and `ProjectAnalyzer.analyze` -/

/-- The combined file list of `scanComponents`: the `app/`, then
`components/`, then `lib/` glob results, each excluding vendor paths. -/
def discoveredFiles (fs : FileSystem) : List String :=
  globFiles fs (fun p => matchesSrcGlob "app" p && !ignoredNodeModules p) ++
  globFiles fs (fun p => matchesSrcGlob "components" p && !ignoredNodeModules p) ++
  globFiles fs (fun p => matchesSrcGlob "lib" p && !ignoredNodeModules p)

/-- The `ComponentInfo` record `scanComponents` builds for one readable
file. -/
def mkComponentInfo (file : String) (c : FileContent) : ComponentInfo :=
  { filePath := file
    name := stripExt file
    type := determineComponentType c.text
    fileType := determineFileType file
    dependencies := (parseFile c.ast).1
    exports := (parseFile c.ast).2 }

/-- The per-file loop of `scanComponents`, with its read trace. A failing
`readFileSync` throws: the loop stops at the first unreadable file and no
partial record list escapes. -/
def scanFilesRun (fs : FileSystem) :
    List String → Except AnalyzerError (List ComponentInfo) × List FsOp
  | [] => (Except.ok [], [])
  | f :: rest =>
    match readFile fs f with
    | none => (Except.error (AnalyzerError.unreadableFile f), [FsOp.readOp f])
    | some c =>
      match scanFilesRun fs rest with
      | (Except.ok comps, ops) => (Except.ok (mkComponentInfo f c :: comps), FsOp.readOp f :: ops)
      | (Except.error e, ops) => (Except.error e, FsOp.readOp f :: ops)

/-- `ProjectAnalyzer.scanComponents`, with its operation trace. -/
def scanComponentsRun (fs : FileSystem) :
    Except AnalyzerError (List ComponentInfo) × List FsOp :=
  let r := scanFilesRun fs (discoveredFiles fs)
  (r.1,
    FsOp.globSearch "app/**/*.\x7bts,tsx\x7d" ::
    FsOp.globSearch "components/**/*.\x7bts,tsx\x7d" ::
    FsOp.globSearch "lib/**/*.\x7bts,tsx\x7d" :: r.2)

/-- `ProjectAnalyzer.analyze`, with its operation trace: the
`fs.existsSync` layout check (note: `existsSync`, true for an entry of
any kind), then `scanComponents`, then `scanRoutes`, then result
assembly. -/
def analyzeRun (fs : FileSystem) :
    Except AnalyzerError AnalysisResult × List FsOp :=
  let isAppRouter := fsExists fs "app"
  if isAppRouter = false then
    (Except.error AnalyzerError.unsupportedLayout, [FsOp.existsCheck "app"])
  else
    match scanComponentsRun fs with
    | (Except.error e, ops) => (Except.error e, FsOp.existsCheck "app" :: ops)
    | (Except.ok comps, ops) =>
      (Except.ok
        { nextJsRoot := fs.rootDir
          isAppRouter := isAppRouter
          components := comps
          routes := scanRoutes fs },
        FsOp.existsCheck "app" :: ops ++ [FsOp.globSearch "app/**/page.\x7bts,tsx\x7d"])

/-- `ProjectAnalyzer.analyze`, result only. -/
def analyze (fs : FileSystem) : Except AnalyzerError AnalysisResult :=
  (analyzeRun fs).1

/-! ### Specification-side definitions

These follow the spec text (§4.1, §8) and are compared against the
embedded source functions. -/

/-- The eight role rules in the order §4.1 lists them; the eighth
(default `component`) is the fallback of `firstMatchingRole`. -/
def roleRules : List ((String → Bool) × FileType) :=
  [ (fun p => strStartsWith (basename p) "page.", FileType.page),
    (fun p => strStartsWith (basename p) "layout.", FileType.layout),
    (fun p => strStartsWith (basename p) "route.", FileType.routeHandler),
    (fun p => strContains p "components/", FileType.component),
    (fun p => strContains p "hooks/" || strStartsWith (basename p) "use", FileType.hook),
    (fun p => strContains p "lib/" || strContains p "utils/", FileType.utility),
    (fun p => strContains (basename p) "actions" || strContains p "actions/",
      FileType.serverAction) ]

/-- First-match-wins evaluation of a rule list, defaulting to
`component`. -/
def firstMatchingRole : List ((String → Bool) × FileType) → String → FileType
  | [], _ => FileType.component
  | (cond, ft) :: rest, p => if cond p then ft else firstMatchingRole rest p

/-- Spec predicate (§4.1/§8): the raw text contains the `use client`
directive literal, single- or double-quoted. -/
def hasUseClientDirective (text : String) : Bool :=
  strContains text "\"use client\"" || strContains text "\x27use client\x27"

/-- Spec predicate: the statement is a default export. In the TypeScript
syntax tree this is either an export assignment (`export default <expr>;`)
or a function/class declaration carrying both the `export` and `default`
modifiers. -/
def isDefaultExportStmt : TsNode → Bool
  | .exportAssignment => true
  | .functionDecl mods _ _ =>
    mods.contains TsModifier.exportKw && mods.contains TsModifier.defaultKw
  | .classDecl mods _ _ =>
    mods.contains TsModifier.exportKw && mods.contains TsModifier.defaultKw
  | _ => false

/-- Spec predicate: the file contains a default-export statement. -/
def hasDefaultExportStmt (ast : List TsNode) : Bool :=
  ast.any isDefaultExportStmt

/-- Spec route derivation (§4.1): strip the literal `app` prefix from the
containing directory. -/
def stripAppPrefixSpec (d : String) : String :=
  if "app".data.isPrefixOf d.data then ⟨d.data.drop 3⟩ else d

/-- Spec route derivation (§4.1): the stripped directory, with an empty
result mapped to `/`. -/
def specRouteOf (p : String) : String :=
  let s := stripAppPrefixSpec (dirname p)
  if s = "" then "/" else s

/-! ### Shared helper lemmas -/

/-- The visitor is a monoid homomorphism on statement lists: sibling
contributions concatenate componentwise, in source order. -/
theorem visitList_append (a b : List TsNode) :
    visitList (a ++ b) =
      ((visitList a).1 ++ (visitList b).1, (visitList a).2 ++ (visitList b).2) := by
  induction a with
  | nil => simp [visitList]
  | cons n rest ih => simp [visitList, ih]

/-! ### Claims -/

/-- C3: role classification applies the eight path/name rules in exactly
the precedence order of §4.1, and `app/actions/useActions.ts`, which
matches both the hook rule (5) and the server-action rule (7), is
assigned `hook`. -/
theorem role_precedence_c3 :
    (∀ p, determineFileType p = firstMatchingRole roleRules p) ∧
    (strContains "app/actions/useActions.ts" "hooks/" ||
      strStartsWith (basename "app/actions/useActions.ts") "use") = true ∧
    (strContains (basename "app/actions/useActions.ts") "actions" ||
      strContains "app/actions/useActions.ts" "actions/") = true ∧
    determineFileType "app/actions/useActions.ts" = FileType.hook :=
  ⟨fun _ => rfl, by decide, by decide, by decide⟩

/-- C5: a file is classified `client` exactly when its raw text contains
the quoted `use client` literal, and `server` otherwise; the check is
textual, so the literal is detected even inside a comment. -/
theorem use_client_textual_c5 :
    (∀ c, (determineComponentType c = ComponentType.client ↔
            hasUseClientDirective c = true) ∧
          (determineComponentType c = ComponentType.server ↔
            hasUseClientDirective c = false)) ∧
    determineComponentType "// \x27use client\x27 inside a comment" =
      ComponentType.client := by
  constructor
  · intro c
    unfold determineComponentType hasUseClientDirective
    cases h : strContains c "\"use client\"" || strContains c "\x27use client\x27" <;>
      simp [h]
  · decide

/-- C6: parsing appends every static import's and every re-export's
module specifier to `dependencies` and exported declaration names to
`exports`, componentwise in source order and without deduplication; in
particular `import \x7b Foo \x7d from "./bar"; export function Baz()
\x7b\x7d` yields `(["./bar"], ["Baz"])`. -/
theorem extraction_roundtrip_c6 :
    parseFile [TsNode.importDecl (some "./bar"),
      TsNode.functionDecl [TsModifier.exportKw] (some "Baz") []] =
        (["./bar"], ["Baz"]) ∧
    (∀ a b : List TsNode, parseFile (a ++ b) =
      ((parseFile a).1 ++ (parseFile b).1, (parseFile a).2 ++ (parseFile b).2)) ∧
    (∀ s, parseFile [TsNode.importDecl (some s)] = ([s], [])) ∧
    (∀ s, parseFile [TsNode.exportDecl (some s)] = ([s], [])) :=
  ⟨rfl, fun a b => visitList_append a b, fun _ => rfl, fun _ => rfl⟩

/-- C7 counterexample: `export default function Foo() \x7b\x7d` is a
default-export statement, but it parses as a function declaration with
`export` and `default` modifiers, so `parseFile` appends `"Foo"` — not
the literal `"default"` — to `exports`. -/
theorem default_export_counterexample_c7 :
    hasDefaultExportStmt
      [TsNode.functionDecl [TsModifier.exportKw, TsModifier.defaultKw]
        (some "Foo") []] = true ∧
    (parseFile [TsNode.functionDecl [TsModifier.exportKw, TsModifier.defaultKw]
      (some "Foo") []]).2 = ["Foo"] ∧
    "default" ∉
      (parseFile [TsNode.functionDecl [TsModifier.exportKw, TsModifier.defaultKw]
        (some "Foo") []]).2 :=
  ⟨rfl, rfl, by decide⟩

/-- C7 amended: a default export in export-assignment form
(`export default <expr>;`) appends the literal `"default"` to `exports`,
wherever it occurs in the file; a default-exported named function
declaration instead contributes its identifier name. -/
theorem default_export_amended_c7 :
    (∀ pre post : List TsNode,
      "default" ∈ (parseFile (pre ++ TsNode.exportAssignment :: post)).2) ∧
    (∀ (n : String) (pre post : List TsNode),
      (parseFile (pre ++
        TsNode.functionDecl [TsModifier.exportKw, TsModifier.defaultKw]
          (some n) [] :: post)).2 =
        (parseFile pre).2 ++ n :: (parseFile post).2) := by
  constructor
  · intro pre post
    have h := visitList_append pre (TsNode.exportAssignment :: post)
    simp [parseFile, h, visitList, visitNode]
  · intro n pre post
    have h := visitList_append pre
      (TsNode.functionDecl [TsModifier.exportKw, TsModifier.defaultKw]
        (some n) [] :: post)
    simp [parseFile, h, visitList, visitNode]

/-! ### Fixtures: small concrete file trees -/

/-- A root whose only entry is a plain *file* named `app` — no directory
named `app` exists. -/
def fileNamedAppTree : FileSystem :=
  { rootDir := "/proj", dirs := [], files := [⟨"app", some ⟨"", []⟩⟩] }

/-- A root with no entry at all named `app`. -/
def emptyTree : FileSystem :=
  { rootDir := "/proj", dirs := [], files := [] }

/-- A root with an `app` directory and no files. -/
def appOnlyTree : FileSystem :=
  { rootDir := "/proj", dirs := ["app"], files := [] }

/-- A root with one readable, parsable file and one unreadable file. -/
def unreadableTree : FileSystem :=
  { rootDir := "/proj"
    dirs := ["app"]
    files :=
      [⟨"app/a.tsx", some ⟨"export const a = 1",
        [TsNode.variableStatement [TsModifier.exportKw] [some "a"]]⟩⟩,
       ⟨"app/b.tsx", none⟩] }

/-- C1 counterexample: the layout check is `fs.existsSync`, which is also
true for a plain file named `app`; on a root holding such a file and no
`app` directory, `analyze` succeeds with an empty result instead of
failing with `UnsupportedLayout`. -/
theorem unsupported_layout_counterexample_c1 :
    fileNamedAppTree.dirs.contains "app" = false ∧
    analyze fileNamedAppTree =
      Except.ok
        { nextJsRoot := "/proj", isAppRouter := true, components := [], routes := [] } ∧
    analyze fileNamedAppTree ≠ Except.error AnalyzerError.unsupportedLayout :=
  ⟨rfl, rfl, fun h => Except.noConfusion h⟩

/-- C1 amended: for every root under which no file-system *entry* (file
or directory) named `app` exists directly, `analyze` fails with
`UnsupportedLayout`, performs no operation beyond the existence check,
and produces no partial result. -/
theorem unsupported_layout_amended_c1 :
    ∀ fs : FileSystem, fsExists fs "app" = false →
      analyzeRun fs =
        (Except.error AnalyzerError.unsupportedLayout, [FsOp.existsCheck "app"]) := by
  intro fs h
  simp [analyzeRun, h]

/-- C1 witness: the amended theorem applied to the empty tree. -/
theorem unsupported_layout_witness_c1 :
    fsExists emptyTree "app" = false ∧
    analyzeRun emptyTree =
      (Except.error AnalyzerError.unsupportedLayout, [FsOp.existsCheck "app"]) :=
  ⟨rfl, unsupported_layout_amended_c1 emptyTree rfl⟩

/-- `scanFilesRun` fails with an `UnreadableFile` error whenever some
file in its list cannot be read. -/
theorem scanFilesRun_error_of_unreadable (fs : FileSystem) (l : List String) :
    (∃ f ∈ l, (readFile fs f).isNone = true) →
    ∃ g, (scanFilesRun fs l).1 = Except.error (AnalyzerError.unreadableFile g) := by
  induction l with
  | nil => rintro ⟨f, hf, _⟩; cases hf
  | cons f rest ih =>
    rintro ⟨g0, hg0, hnone⟩
    cases hr : readFile fs f with
    | none => exact ⟨f, by simp [scanFilesRun, hr]⟩
    | some c =>
      have hrest : ∃ x ∈ rest, (readFile fs x).isNone = true := by
        rcases List.mem_cons.mp hg0 with h | h
        · subst h; rw [hr] at hnone; cases hnone
        · exact ⟨g0, h, hnone⟩
      rcases ih hrest with ⟨g, hg⟩
      rcases hsr : scanFilesRun fs rest with ⟨res, ops⟩
      rw [hsr] at hg
      cases res with
      | ok comps => simp at hg
      | error e =>
        simp at hg
        exact ⟨g, by simp [scanFilesRun, hr, hsr, hg]⟩

/-- C2 counterexample: a tree with one readable file and one unreadable
file; instead of succeeding with one record, the scan aborts with the
`UnreadableFile` error and produces no records at all. -/
theorem unreadable_aborts_counterexample_c2 :
    (readFile unreadableTree "app/a.tsx").isSome = true ∧
    (readFile unreadableTree "app/b.tsx").isNone = true ∧
    analyze unreadableTree =
      Except.error (AnalyzerError.unreadableFile "app/b.tsx") :=
  ⟨rfl, rfl, rfl⟩

/-- C2 amended: whenever some discovered file cannot be read, the whole
scan fails with an `UnreadableFile` error — the failure is not skipped
and no record list is returned. -/
theorem unreadable_aborts_amended_c2 :
    ∀ fs : FileSystem, fsExists fs "app" = true →
      (∃ f ∈ discoveredFiles fs, (readFile fs f).isNone = true) →
      ∃ g, analyze fs = Except.error (AnalyzerError.unreadableFile g) := by
  intro fs happ hex
  rcases scanFilesRun_error_of_unreadable fs (discoveredFiles fs) hex with ⟨g, hg⟩
  rcases hr : scanFilesRun fs (discoveredFiles fs) with ⟨res, ops⟩
  rw [hr] at hg
  simp only at hg
  subst hg
  exact ⟨g, by simp [analyze, analyzeRun, scanComponentsRun, hr, happ]⟩

/-- C2 witness: the amended theorem applied to the concrete tree with an
unreadable file. -/
theorem unreadable_aborts_witness_c2 :
    fsExists unreadableTree "app" = true ∧
    (∃ f ∈ discoveredFiles unreadableTree,
      (readFile unreadableTree f).isNone = true) ∧
    ∃ g, analyze unreadableTree = Except.error (AnalyzerError.unreadableFile g) :=
  ⟨by decide, by decide,
    unreadable_aborts_amended_c2 unreadableTree (by decide) (by decide)⟩

/-- C10: every `AnalysisResult` a successful `analyze` call returns has
`isAppRouter = true`; the field can never be `false` in a returned
result, since a failed layout check aborts before result construction. -/
theorem is_app_router_invariant_c10 :
    ∀ (fs : FileSystem) (r : AnalysisResult),
      analyze fs = Except.ok r → r.isAppRouter = true := by
  intro fs r h
  unfold analyze analyzeRun at h
  by_cases happ : fsExists fs "app" = false
  · simp [happ] at h
  · simp only [happ, if_false] at h
    rcases hr : scanComponentsRun fs with ⟨res, ops⟩
    rw [hr] at h
    cases res with
    | error e => simp at h
    | ok comps =>
      simp at h
      subst h
      rfl

/-- C10 witness: the invariant applied to a concrete successful scan. -/
theorem is_app_router_witness_c10 :
    ({ nextJsRoot := "/proj", isAppRouter := true, components := [], routes := [] } :
      AnalysisResult).isAppRouter = true :=
  is_app_router_invariant_c10 appOnlyTree _ rfl

/-- A read-only operation leaves the tree unchanged. -/
theorem applyOp_readonly (fs : FileSystem) (op : FsOp)
    (h : isReadOnlyOp op = true) : applyOp fs op = fs := by
  cases op with
  | existsCheck p => rfl
  | globSearch p => rfl
  | readOp p => rfl
  | writeFile p t => exact Bool.noConfusion h
  | deleteFile p => exact Bool.noConfusion h
  | renameFile a b => exact Bool.noConfusion h

/-- A trace of read-only operations leaves the tree unchanged. -/
theorem applyTrace_readonly (ops : List FsOp) :
    ∀ fs : FileSystem, ops.all isReadOnlyOp = true → applyTrace fs ops = fs := by
  induction ops with
  | nil => intro fs _; rfl
  | cons op rest ih =>
    intro fs h
    rw [List.all_cons, Bool.and_eq_true] at h
    show applyTrace (applyOp fs op) rest = fs
    rw [applyOp_readonly fs op h.1]
    exact ih fs h.2

/-- Every operation the per-file loop performs is a read. -/
theorem scanFilesRun_ops_readonly (fs : FileSystem) (l : List String) :
    ((scanFilesRun fs l).2).all isReadOnlyOp = true := by
  induction l with
  | nil => rfl
  | cons f rest ih =>
    cases hr : readFile fs f with
    | none => simp [scanFilesRun, hr, isReadOnlyOp]
    | some c =>
      rcases hsr : scanFilesRun fs rest with ⟨res, ops⟩
      rw [hsr] at ih
      simp only at ih
      cases res with
      | ok comps => simp [scanFilesRun, hr, hsr, isReadOnlyOp, ih]
      | error e => simp [scanFilesRun, hr, hsr, isReadOnlyOp, ih]

/-- Every operation `analyze` performs is a read. -/
theorem analyzeRun_ops_readonly (fs : FileSystem) :
    ((analyzeRun fs).2).all isReadOnlyOp = true := by
  unfold analyzeRun scanComponentsRun
  by_cases happ : fsExists fs "app" = false
  · simp [happ, isReadOnlyOp]
  · simp only [happ, if_false]
    rcases hsr : scanFilesRun fs (discoveredFiles fs) with ⟨res, ops⟩
    have hops := scanFilesRun_ops_readonly fs (discoveredFiles fs)
    rw [hsr] at hops
    simp only at hops
    cases res with
    | error e => simp [hsr, isReadOnlyOp, hops]
    | ok comps => simp [hsr, isReadOnlyOp, hops, List.all_append]

/-- Running the trace of an `analyze` call back over the tree it scanned
returns that tree unchanged. -/
theorem analyze_preserves_fs (fs : FileSystem) :
    applyTrace fs (analyzeRun fs).2 = fs :=
  applyTrace_readonly _ fs (analyzeRun_ops_readonly fs)

/-- C9: `analyze` has no side effect on the file system — its operation
trace contains no write, delete, or rename, and the tree after the call
equals the tree before it. -/
theorem no_side_effects_c9 :
    ∀ fs : FileSystem,
      ((analyzeRun fs).2).all isReadOnlyOp = true ∧
      applyTrace fs (analyzeRun fs).2 = fs :=
  fun fs => ⟨analyzeRun_ops_readonly fs, analyze_preserves_fs fs⟩

/-- C8: a second `analyze` call on the tree as the first call left it
returns an identical result — same records with the same field values in
the same order, and the same route list. -/
theorem scan_idempotent_c8 :
    ∀ fs : FileSystem,
      analyzeRun (applyTrace fs (analyzeRun fs).2) = analyzeRun fs := by
  intro fs
  rw [analyze_preserves_fs]

/-- A list starting with `/` always has a directory part. -/
theorem dirnameAux_slash (t : List Char) : ∃ d, dirnameAux ('/' :: t) = some d := by
  cases h : dirnameAux t with
  | some x => exact ⟨'/' :: x, by simp [dirnameAux, h]⟩
  | none => exact ⟨[], by simp [dirnameAux, h]⟩

theorem dirnameAux_cons_of_some {t : List Char} {d : List Char} (c : Char)
    (h : dirnameAux t = some d) : dirnameAux (c :: t) = some (c :: d) := by
  simp [dirnameAux, h]

/-- The directory part of a path starting with `app/` starts with
`app`. -/
theorem dirname_app_prefix (rest : List Char) :
    ∃ d, dirnameAux ('a' :: 'p' :: 'p' :: '/' :: rest) =
      some ('a' :: 'p' :: 'p' :: d) := by
  rcases dirnameAux_slash rest with ⟨d0, hd0⟩
  exact ⟨d0, dirnameAux_cons_of_some 'a'
    (dirnameAux_cons_of_some 'p' (dirnameAux_cons_of_some 'p' hd0))⟩

/-- For a path starting with `app/`, the first-occurrence `replace` of
`scanRoutes` coincides with the spec's strip-the-`app`-prefix rule. -/
theorem routeOf_eq_spec_of_app_prefix (p : String) (rest : List Char)
    (hp : p.data = 'a' :: 'p' :: 'p' :: '/' :: rest) :
    routeOf p = specRouteOf p := by
  rcases dirname_app_prefix rest with ⟨d, hd⟩
  have hdir : dirname p = ⟨'a' :: 'p' :: 'p' :: d⟩ := by
    unfold dirname
    rw [hp, hd]
  have hpre : ("app".data).isPrefixOf ('a' :: 'p' :: 'p' :: d) = true := by
    simp [List.isPrefixOf]
  have hrep : replaceFirstChars ("app".data) ("".data) ('a' :: 'p' :: 'p' :: d) = d := by
    unfold replaceFirstChars
    simp [hpre]
  unfold routeOf specRouteOf stripAppPrefixSpec jsReplaceFirst
  rw [hdir]
  simp [hpre, hrep]

/-- A path matching the page glob starts with the characters `app/`. -/
theorem pageGlob_app_prefix {p : String} (h : matchesPageGlob p = true) :
    ∃ rest, p.data = 'a' :: 'p' :: 'p' :: '/' :: rest := by
  unfold matchesPageGlob at h
  rw [Bool.and_eq_true, Bool.and_eq_true] at h
  have h1 := h.1.1
  unfold strStartsWith at h1
  rcases List.isPrefixOf_iff_prefix.mp h1 with ⟨t, ht⟩
  exact ⟨t, by simpa using ht.symm⟩

/-- C4: for every file the page glob discovers, the derived route is the
containing directory with the literal `app` prefix stripped, an empty
remainder mapping to `/`; in particular `app/dashboard/settings/page.tsx`
yields `/dashboard/settings` and `app/page.tsx` yields `/`. -/
theorem route_derivation_c4 :
    (∀ p, matchesPageGlob p = true → routeOf p = specRouteOf p) ∧
    routeOf "app/dashboard/settings/page.tsx" = "/dashboard/settings" ∧
    routeOf "app/page.tsx" = "/" ∧
    matchesPageGlob "app/dashboard/settings/page.tsx" = true ∧
    matchesPageGlob "app/page.tsx" = true := by
  refine ⟨?_, by decide, by decide, by decide, by decide⟩
  intro p h
  rcases pageGlob_app_prefix h with ⟨rest, hp⟩
  exact routeOf_eq_spec_of_app_prefix p rest hp

/-- C4 witness: the universally quantified part applied to a concrete
discovered page file. -/
theorem route_derivation_witness_c4 :
    matchesPageGlob "app/x/page.ts" = true ∧
    routeOf "app/x/page.ts" = specRouteOf "app/x/page.ts" :=
  ⟨by decide, route_derivation_c4.1 "app/x/page.ts" (by decide)⟩

end Neta
